import Mathlib

/-!
Shallow embedding of the fastdns DNS wire codec (message.go / request.go) and
proofs about its parsing, serialization, name decompression and record
iteration routines.

Conventions of the embedding:
* a Go `[]byte` is a `List Nat` whose entries are byte values;
* Go `uint16`/`uint32` values are `Nat`s; byte extraction `byte(x >> 8)` is
  rendered `x / 256 % 256`, and big-endian recomposition `uint16(b0)<<8 | b1`
  is rendered `b0 * 256 + b1` (identical for byte-valued operands);
* a Go function that can panic (index or slice out of range) returns a result
  with an explicit `crashed` constructor, so the out-of-range branches of the
  original indexing are visible and provable;
* loops are rendered as recursive functions; the one loop of the source that
  has no termination argument at all (the compression-pointer chase of
  `Message.DecodeName`) takes an explicit fuel argument, and fuel exhaustion
  (result `none`) for every fuel witnesses divergence.
-/

namespace Fastdns

/-- Error values of message.go: ErrInvalidHeader, ErrInvalidQuestion, ErrInvalidAnswer. -/
inductive DnsErr where
  | invalidHeader
  | invalidQuestion
  | invalidAnswer
deriving DecidableEq, Repr

/-- Header part of `Message` (message.go): ID, packed flag word Bits, and the four counts. -/
structure Header where
  id : Nat
  bits : Nat
  qdCount : Nat
  anCount : Nat
  nsCount : Nat
  arCount : Nat
deriving DecidableEq, Repr

/-- Question part of `Message`: raw label-encoded name (a Go nil slice is `none`),
query type and query class. -/
structure Question where
  name : Option (List Nat)
  type : Nat
  cls : Nat
deriving DecidableEq, Repr

/-- The `Message` struct of message.go: raw packet, cached decoded domain, header, question. -/
structure Message where
  raw : List Nat
  domain : List Nat
  header : Header
  question : Question
deriving DecidableEq, Repr

/-- A message value with everything empty, used as the parse destination. -/
def emptyMessage : Message :=
  { raw := [], domain := [], header := ⟨0, 0, 0, 0, 0, 0⟩, question := ⟨none, 0, 0⟩ }

/-- Outcome of `ParseMessage`: success, one of the declared error values, or a
runtime panic (index out of range) in the Go original. -/
inductive ParseOut where
  | ok (msg : Message)
  | err (e : DnsErr)
  | crashed
deriving DecidableEq, Repr

/-- The QNAME terminator scan of `ParseMessage` and `ParseRequest`:
`for i, b = range payload { if b == 0 { break } }` yields the index of the first
zero byte; if none is found, `i` is left at the last index (`0` for an empty list). -/
def findZero : List Nat → Option Nat
  | [] => none
  | b :: bs => if b = 0 then some 0 else (findZero bs).map (· + 1)

/-- The label-to-dot rewrite loop shared by `ParseMessage` and `DecodeName`:
`for buf[i] != 0 { j := buf[i]; buf[i] = '.'; i += j + 1 }`, returning the
rewritten buffer, or `none` when the index leaves the buffer (a Go panic).
The first argument is recursion fuel; the wrapper below supplies
`buf.length + 1`, which is never exhausted because `i` strictly increases
while it stays below the (constant) buffer length. -/
def dotRewriteAux : Nat → List Nat → Nat → Option (List Nat)
  | 0, _, _ => none
  | fuel + 1, buf, i =>
    match buf[i]? with
    | none => none
    | some b => if b = 0 then some buf else dotRewriteAux fuel (buf.set i 46) (i + b + 1)

/-- The label-to-dot rewrite loop at its always-sufficient fuel. -/
def dotRewrite (buf : List Nat) (i : Nat) : Option (List Nat) :=
  dotRewriteAux (buf.length + 1) buf i

/-- `ParseMessage` of message.go. `dst` is the destination message (its `raw`
survives when `copying` is false), `payload` the packet, `copying` the copy flag. -/
def parseMessage (dst : Message) (payload : List Nat) (copying : Bool) : ParseOut :=
  let raw := if copying then payload else dst.raw
  if payload.length < 12 then .err .invalidHeader else
  let id := payload.getD 0 0 * 256 + payload.getD 1 0
  let bits := payload.getD 2 0 * 256 + payload.getD 3 0
  let qd := payload.getD 4 0 * 256 + payload.getD 5 0
  let an := payload.getD 6 0 * 256 + payload.getD 7 0
  let ns := payload.getD 8 0 * 256 + payload.getD 9 0
  let ar := payload.getD 10 0 * 256 + payload.getD 11 0
  if qd ≠ 1 then .err .invalidHeader else
  let p := payload.drop 12
  let i := (findZero p).getD (p.length - 1)
  if i = 0 ∨ i + 5 > p.length then .err .invalidQuestion else
  let name := p.take (i + 1)
  let p2 := p.drop i
  let cls := p2.getD 3 0 * 256 + p2.getD 4 0
  let typ := p2.getD 1 0 * 256 + p2.getD 2 0
  match dotRewrite (name.drop 1) (name.getD 0 0) with
  | none => .crashed
  | some buf =>
      .ok { raw := raw, domain := buf.dropLast,
            header := ⟨id, bits, qd, an, ns, ar⟩,
            question := ⟨some name, typ, cls⟩ }

/-- Wire encoding of one label: its length byte followed by its bytes. -/
def labelEnc (l : List Nat) : List Nat := l.length :: l

/-- Concatenated length-prefixed labels, without the terminating zero byte. -/
def nameBody (labels : List (List Nat)) : List Nat := (labels.map labelEnc).flatten

/-- Full wire encoding of a QNAME: length-prefixed labels plus the zero terminator. -/
def encodeLabels (labels : List (List Nat)) : List Nat := nameBody labels ++ [0]

/-- Dot-separated rendering of the labels after the first one: each later label
is preceded by a `'.'` byte (46), and the zero terminator is kept. -/
def dotTail (labels : List (List Nat)) : List Nat := (labels.map (fun l => 46 :: l)).flatten

/-- The dot-joined text form of a label sequence: labels joined by `'.'` (46),
no leading and no trailing dot. -/
def dotJoin : List (List Nat) → List Nat
  | [] => []
  | l :: ls => l ++ dotTail ls

/-- Well-formed question labels: at least one label, each label non-empty, at
most 63 bytes long, and free of zero bytes (so the first zero byte of the
packet tail really is the QNAME terminator). -/
def wfLabels (labels : List (List Nat)) : Prop :=
  labels ≠ [] ∧ ∀ l ∈ labels, l ≠ [] ∧ l.length ≤ 63 ∧ ∀ b ∈ l, b ≠ 0

instance : DecidablePred wfLabels := fun _ => by
  unfold wfLabels; infer_instance

lemma encodeLabels_cons (l : List Nat) (ls : List (List Nat)) :
    encodeLabels (l :: ls) = l.length :: (l ++ encodeLabels ls) := by
  simp [encodeLabels, nameBody, labelEnc, List.append_assoc]

lemma dotTail_cons (l : List Nat) (ls : List (List Nat)) :
    dotTail (l :: ls) = 46 :: (l ++ dotTail ls) := by
  simp [dotTail]

lemma length_nameBody_cons (l : List Nat) (ls : List (List Nat)) :
    (nameBody (l :: ls)).length = l.length + 1 + (nameBody ls).length := by
  simp [nameBody, labelEnc]; omega

/-- The first zero byte of `xs ++ 0 :: ys` sits right after `xs` when `xs` is zero-free. -/
lemma findZero_append (xs : List Nat) (h : ∀ b ∈ xs, b ≠ 0) (ys : List Nat) :
    findZero (xs ++ 0 :: ys) = some xs.length := by
  induction xs with
  | nil => simp [findZero]
  | cons a as ih =>
    have ha : a ≠ 0 := h a (by simp)
    have ih' := ih (fun b hb => h b (by simp [hb]))
    simp [findZero, ha, ih']

/-- The body of a well-formed label sequence contains no zero byte. -/
lemma nameBody_ne_zero (labels : List (List Nat))
    (h : ∀ l ∈ labels, l ≠ [] ∧ l.length ≤ 63 ∧ ∀ b ∈ l, b ≠ 0) :
    ∀ b ∈ nameBody labels, b ≠ 0 := by
  induction labels with
  | nil => simp [nameBody]
  | cons l ls ih =>
    intro b hb
    obtain ⟨hl, _, hbytes⟩ := h l (by simp)
    have hb' : b ∈ (l.length :: l) ++ nameBody ls := by
      simpa [nameBody, labelEnc] using hb
    rcases List.mem_append.mp hb' with hcons | htail
    · rcases List.mem_cons.mp hcons with hlen | hmem
      · subst hlen
        simpa [List.length_eq_zero] using hl
      · exact hbytes b hmem
    · exact ih (fun l' hl' => h l' (by simp [hl'])) b htail

/-- Setting the element just after a prefix of an append. -/
lemma set_append_mid (pre : List Nat) (x v : Nat) (t : List Nat) :
    (pre ++ x :: t).set pre.length v = pre ++ v :: t := by
  induction pre with
  | nil => simp
  | cons a as ih => simp [List.set, ih]

/-- Reading the element just after a prefix of an append. -/
lemma getElem?_append_mid (pre : List Nat) (x : Nat) (t : List Nat) :
    (pre ++ x :: t)[pre.length]? = some x := by
  rw [List.getElem?_append_right (Nat.le_refl _)]
  simp

/-- The dot rewrite turns the encoded labels sitting after an untouched prefix
into their dot-separated form, keeping the terminator. -/
lemma dotRewriteAux_labels (ls : List (List Nat)) :
    ∀ (pre : List Nat) (fuel : Nat), (∀ l ∈ ls, l ≠ []) →
    (nameBody ls).length + 1 ≤ fuel →
    dotRewriteAux fuel (pre ++ encodeLabels ls) pre.length =
      some (pre ++ dotTail ls ++ [0]) := by
  induction ls with
  | nil =>
    intro pre fuel _ hfuel
    obtain ⟨f, rfl⟩ : ∃ f, fuel = f + 1 := ⟨fuel - 1, by omega⟩
    simp [dotRewriteAux, encodeLabels, nameBody, dotTail, getElem?_append_mid]
  | cons l ls ih =>
    intro pre fuel hne hfuel
    have hlen : (nameBody (l :: ls)).length = l.length + 1 + (nameBody ls).length :=
      length_nameBody_cons l ls
    obtain ⟨f, rfl⟩ : ∃ f, fuel = f + 1 := ⟨fuel - 1, by omega⟩
    have hl : l ≠ [] := hne l (by simp)
    have hl0 : l.length ≠ 0 := by simpa [List.length_eq_zero] using hl
    rw [encodeLabels_cons]
    simp only [dotRewriteAux, getElem?_append_mid, hl0, if_neg hl0]
    rw [set_append_mid]
    have hre : pre ++ 46 :: (l ++ encodeLabels ls) = (pre ++ 46 :: l) ++ encodeLabels ls := by
      simp [List.append_assoc]
    have hidx : pre.length + l.length + 1 = (pre ++ 46 :: l).length := by
      simp; omega
    rw [hre, hidx, ih (pre ++ 46 :: l) f (fun l' h' => hne l' (by simp [h'])) (by omega)]
    rw [dotTail_cons]
    simp [List.append_assoc]

/-- `ParseMessage` on a well-formed single-question packet: full characterization
of the success value. Shared backbone of the parsing, round-trip and name
decoding results below. -/
lemma parseMessage_wf (hd : List Nat) (labels : List (List Nat)) (t1 t2 c1 c2 : Nat)
    (rest : List Nat) (dst : Message) (copying : Bool)
    (hhd : hd.length = 12) (hqd : hd.getD 4 0 * 256 + hd.getD 5 0 = 1)
    (hwf : wfLabels labels) :
    parseMessage dst (hd ++ encodeLabels labels ++ t1 :: t2 :: c1 :: c2 :: rest) copying =
      .ok { raw := if copying then hd ++ encodeLabels labels ++ t1 :: t2 :: c1 :: c2 :: rest
                   else dst.raw,
            domain := dotJoin labels,
            header := ⟨hd.getD 0 0 * 256 + hd.getD 1 0, hd.getD 2 0 * 256 + hd.getD 3 0, 1,
                       hd.getD 6 0 * 256 + hd.getD 7 0, hd.getD 8 0 * 256 + hd.getD 9 0,
                       hd.getD 10 0 * 256 + hd.getD 11 0⟩,
            question := ⟨some (encodeLabels labels), t1 * 256 + t2, c1 * 256 + c2⟩ } := by
  obtain ⟨hne, hall⟩ := hwf
  obtain ⟨l, ls, rfl⟩ := List.exists_cons_of_ne_nil hne
  have hl : l ≠ [] := (hall l (by simp)).1
  have hl0 : l.length ≠ 0 := by simpa [List.length_eq_zero] using hl
  set T := t1 :: t2 :: c1 :: c2 :: rest with hT
  set N := nameBody (l :: ls) with hN
  have hE : encodeLabels (l :: ls) = N ++ [0] := rfl
  have hlen1 : N.length = l.length + 1 + (nameBody ls).length := length_nameBody_cons l ls
  have hassoc : hd ++ encodeLabels (l :: ls) ++ T = hd ++ (N ++ (0 :: T)) := by
    rw [hE]; simp [List.append_assoc]
  rw [hassoc]
  have hPlen : (hd ++ (N ++ (0 :: T))).length = 12 + N.length + 5 + rest.length := by
    simp [hhd, hT]; omega
  have hfz : findZero (N ++ 0 :: T) = some N.length :=
    findZero_append N (nameBody_ne_zero (l :: ls) hall) T
  have hgetD : ∀ k, k < 12 → (hd ++ (N ++ (0 :: T))).getD k 0 = hd.getD k 0 := by
    intro k hk
    exact List.getD_append _ _ _ _ (by omega)
  have hdrop12 : (hd ++ (N ++ (0 :: T))).drop 12 = N ++ 0 :: T := by
    rw [← hhd, List.drop_left]
  have htake : (N ++ 0 :: T).take (N.length + 1) = N ++ [0] := by
    have h1 := @List.take_append Nat N (0 :: T) 1
    simpa using h1
  have hdropN : (N ++ 0 :: T).drop N.length = 0 :: T := List.drop_left N (0 :: T)
  unfold parseMessage
  rw [if_neg (by rw [hPlen]; omega)]
  rw [hgetD 4 (by omega), hgetD 5 (by omega), if_neg (by rw [hqd]; omega)]
  rw [hdrop12]
  simp only [hfz, Option.getD_some]
  have hcond : ¬(N.length = 0 ∨ N.length + 5 > (N ++ 0 :: T).length) := by
    simp only [List.length_append, hT, List.length_cons]
    omega
  rw [if_neg hcond]
  have hname : N ++ [0] = l.length :: (l ++ encodeLabels ls) := by
    rw [← hE, encodeLabels_cons]
  rw [htake, hdropN, hname]
  have hget0 : (l.length :: (l ++ encodeLabels ls)).getD 0 0 = l.length := rfl
  have hdrop1 : (l.length :: (l ++ encodeLabels ls)).drop 1 = l ++ encodeLabels ls := rfl
  have hrw : dotRewrite (l ++ encodeLabels ls) l.length = some (l ++ dotTail ls ++ [0]) := by
    unfold dotRewrite
    exact dotRewriteAux_labels ls l _ (fun l' h' => (hall l' (by simp [h'])).1)
      (by simp [encodeLabels]; omega)
  rw [hget0, hdrop1, hrw]
  have hdom : (l ++ dotTail ls ++ [0]).dropLast = dotJoin (l :: ls) := by
    rw [List.dropLast_concat]; rfl
  simp only [hqd, hT, List.getD_cons_succ, List.getD_cons_zero]
  rw [hdom, ← hname, ← hE]
  rw [← hT]
  rw [hgetD 0 (by omega), hgetD 1 (by omega), hgetD 2 (by omega), hgetD 3 (by omega),
      hgetD 6 (by omega), hgetD 7 (by omega), hgetD 8 (by omega), hgetD 9 (by omega),
      hgetD 10 (by omega), hgetD 11 (by omega)]

/-- Claim C2: for every well-formed single-question packet of at least 12 bytes with
QDCOUNT = 1 (a QNAME made of labels of length 1-63 whose lengths are consistent with
the terminating zero byte, followed by QTYPE and QCLASS), `ParseMessage` succeeds and
afterwards `Domain` equals the dot-joined concatenation of the QNAME labels, with the
length-prefix bytes and the terminal zero removed and no leading or trailing dot. -/
theorem c2_parse_domain (hd : List Nat) (labels : List (List Nat)) (t1 t2 c1 c2 : Nat)
    (rest : List Nat) (dst : Message) (copying : Bool)
    (hhd : hd.length = 12) (hqd : hd.getD 4 0 * 256 + hd.getD 5 0 = 1)
    (hwf : wfLabels labels) :
    ∃ msg, parseMessage dst (hd ++ encodeLabels labels ++ t1 :: t2 :: c1 :: c2 :: rest) copying
        = .ok msg ∧ msg.domain = dotJoin labels :=
  ⟨_, parseMessage_wf hd labels t1 t2 c1 c2 rest dst copying hhd hqd hwf, rfl⟩

/-- Witness for C2: the hypotheses hold and the conclusion evaluates on the concrete
packet for the question name `a.b` with QTYPE 1 and QCLASS 1. -/
theorem c2_parse_domain_witness :
    (([0, 0, 0, 0, 0, 1, 0, 0, 0, 0, 0, 0] : List Nat).length = 12 ∧
      ([0, 0, 0, 0, 0, 1, 0, 0, 0, 0, 0, 0] : List Nat).getD 4 0 * 256 +
        ([0, 0, 0, 0, 0, 1, 0, 0, 0, 0, 0, 0] : List Nat).getD 5 0 = 1 ∧
      wfLabels [[97], [98]]) ∧
    ∃ msg,
      parseMessage emptyMessage
          ([0, 0, 0, 0, 0, 1, 0, 0, 0, 0, 0, 0] ++ encodeLabels [[97], [98]] ++
            0 :: 1 :: 0 :: 1 :: []) true = .ok msg ∧
      msg.domain = dotJoin [[97], [98]] :=
  ⟨⟨by decide, by decide, by decide⟩,
    c2_parse_domain [0, 0, 0, 0, 0, 1, 0, 0, 0, 0, 0, 0] [[97], [98]] 0 1 0 1 [] emptyMessage
      true (by decide) (by decide) (by decide)⟩

/-- Claim C10: refuted on the code. `ParseMessage` does not always return a declared
error or succeed: on the 19-byte payload whose question section is `[3, 'a', 0]`
followed by QTYPE/QCLASS — a first zero byte that is inconsistent with the label
length 3 — the domain-decoding loop indexes position 3 of the 2-byte copied name
buffer, the out-of-range branch of the embedding (a Go index-out-of-range panic). -/
theorem c10_parse_oob_crash :
    parseMessage emptyMessage [0, 0, 0, 0, 0, 1, 0, 0, 0, 0, 0, 0, 3, 97, 0, 1, 0, 0, 1] true
      = .crashed := by decide

/-- Outcome of one run of the inner scan loop of `DecodeName`'s pointer chase
(`for i := offset; i < len(msg.Raw); { ... }`). -/
inductive ChaseStep where
  | done (dst : List Nat)
  | jump (offset : Nat) (dst : List Nat)
  | fellOff (dst : List Nat)
  | oob
deriving DecidableEq, Repr

/-- The inner scan loop of `DecodeName`: from index `i`, append literal labels,
stop on the zero terminator (`done`), on a compression pointer (`jump`), or by
running past the end of `raw` (`fellOff`, leaving the outer offset unchanged);
`oob` is a Go panic (pointer second byte or label slice out of range). The fuel
argument only serves structural recursion; the wrapper passes `raw.length + 1`,
which cannot be exhausted since `i` strictly increases while in range. -/
def chaseInnerAux : Nat → List Nat → Nat → List Nat → ChaseStep
  | 0, _, _, _ => .oob
  | fuel + 1, raw, i, dst =>
    match raw[i]? with
    | none => .fellOff dst
    | some b =>
      if b = 0 then .done (dst ++ [0])
      else if b &&& 192 = 192 then
        match raw[i + 1]? with
        | none => .oob
        | some b2 => .jump ((b &&& 63) <<< 8 + b2) dst
      else if i + b + 1 ≤ raw.length then
        chaseInnerAux fuel raw (i + b + 1) (dst ++ (raw.drop i).take (b + 1))
      else .oob

/-- The inner scan loop at its always-sufficient fuel. -/
def chaseInner (raw : List Nat) (i : Nat) (dst : List Nat) : ChaseStep :=
  chaseInnerAux (raw.length + 1) raw i dst

/-- Final outcome of the pointer chase: the assembled buffer, or a Go panic. -/
inductive ChaseOut where
  | out (dst : List Nat)
  | oob
deriving DecidableEq, Repr

/-- The outer pointer-chase loop of `DecodeName` (`for offset != 0 { ... }`).
This loop of the source has no termination guarantee: `fuel` bounds the number
of iterations, and a result of `none` for every fuel witnesses divergence. -/
def chaseLoop (raw : List Nat) : Nat → Nat → List Nat → Option ChaseOut
  | 0, _, _ => none
  | fuel + 1, offset, dst =>
    if offset = 0 then some (.out dst)
    else
      match chaseInner raw offset dst with
      | .done d => chaseLoop raw fuel 0 d
      | .jump o d => chaseLoop raw fuel o d
      | .fellOff d => chaseLoop raw fuel offset d
      | .oob => some .oob

/-- Body of `Message.DecodeName` after its two initial guards: seed the buffer
and offset from the trailing pointer (or the whole literal name), chase
pointers through `msg.Raw`, then rewrite length prefixes to dots and strip the
first length byte and the trailing terminator. Result `none` is fuel
exhaustion of the chase (divergence), `some none` a Go panic, and
`some (some dst)` a normal return. -/
def decodeNameCore (msg : Message) (fuel : Nat) (dst name : List Nat) :
    Option (Option (List Nat)) :=
  let pos := dst.length
  let dst1 := if name.getLast? = some 0 then dst ++ name
              else dst ++ name.take (name.length - 2)
  let offset := if name.getLast? = some 0 then 0
                else (name.getD (name.length - 2) 0 &&& 63) <<< 8 + name.getD (name.length - 1) 0
  match chaseLoop msg.raw fuel offset dst1 with
  | none => none
  | some .oob => some none
  | some (.out dst2) =>
    match dotRewrite dst2 pos with
    | none => some none
    | some dst3 =>
      if pos + 2 ≤ dst3.length then
        some (some (dst3.take pos ++ (dst3.drop (pos + 1)).dropLast))
      else some none

/-- The general path of `Message.DecodeName`: the function as written, minus the
fast-path branch for a 2-byte pointer to offset 12. -/
def decodeNameGeneral (msg : Message) (fuel : Nat) (dst name : List Nat) :
    Option (Option (List Nat)) :=
  if name.length < 2 then some (some dst)
  else decodeNameCore msg fuel dst name

/-- `Message.DecodeName` of message.go: short name guard, fast path returning
the cached `Domain` for the canonical question-name pointer `[0xC0, 12]`, and
the general pointer-chasing path otherwise. -/
def decodeName (msg : Message) (fuel : Nat) (dst name : List Nat) :
    Option (Option (List Nat)) :=
  if name.length < 2 then some (some dst)
  else if name.getD 1 0 = 12 ∧ name.getD 0 0 = 192 then some (some (dst ++ msg.domain))
  else decodeNameCore msg fuel dst name

/-- A 15-byte packet whose bytes at offsets 13 and 14 form a compression pointer
that points at its own offset 13: a one-step pointer cycle. -/
def msgC1 : Message :=
  { raw := [0, 0, 0, 0, 0, 0, 0, 0, 0, 0, 0, 0, 0, 192, 13], domain := [],
    header := ⟨0, 0, 1, 0, 0, 0⟩, question := ⟨none, 0, 0⟩ }

/-- Claim C1: refuted on the code. On the name `[0xC0, 13]`, whose pointer chain
revisits offset 13 forever, `Message.DecodeName` never terminates: for every
iteration bound the chase loop exhausts its fuel instead of rejecting the input
with a decode error (the source tracks no visited offsets and has no error path
at all). -/
theorem c1_pointer_cycle_spins :
    ∀ (fuel : Nat) (dst : List Nat), decodeName msgC1 fuel dst [192, 13] = none := by
  have hloop : ∀ (f : Nat) (d : List Nat), chaseLoop msgC1.raw f 13 d = none := by
    intro f
    induction f with
    | zero => intro d; rfl
    | succ f ih =>
      intro d
      have hstep : chaseInner msgC1.raw 13 d = .jump 13 d := rfl
      simp [chaseLoop, hstep, ih]
  intro fuel dst
  simp only [decodeName, decodeNameCore]
  norm_num
  have hoff : (192 &&& 63) <<< 8 + 13 = 13 := by decide
  rw [hoff, hloop]

lemma le63_land192 (b : Nat) (hb : b ≤ 63) : b &&& 192 = 0 := by
  have h : ∀ c < 64, c &&& 192 = 0 := by decide
  exact h b (by omega)

lemma nameBody_cons (l : List Nat) (ls : List (List Nat)) :
    nameBody (l :: ls) = l.length :: (l ++ nameBody ls) := by
  simp [nameBody, labelEnc]

/-- The inner chase scan started at the beginning of an encoded label run walks
exactly the labels, appends them with their terminator to the buffer and stops
on the zero byte. -/
lemma chaseInnerAux_labels (ls : List (List Nat)) :
    ∀ (P S acc : List Nat) (fuel : Nat),
    (∀ l ∈ ls, l ≠ [] ∧ l.length ≤ 63) → (nameBody ls).length + 1 ≤ fuel →
    chaseInnerAux fuel (P ++ (nameBody ls ++ 0 :: S)) P.length acc
      = .done (acc ++ (nameBody ls ++ [0])) := by
  induction ls with
  | nil =>
    intro P S acc fuel _ hfuel
    obtain ⟨f, rfl⟩ : ∃ f, fuel = f + 1 := ⟨fuel - 1, by omega⟩
    have h0 : nameBody ([] : List (List Nat)) ++ 0 :: S = 0 :: S := rfl
    rw [h0]
    simp only [chaseInnerAux]
    rw [getElem?_append_mid]
    simp [nameBody]
  | cons l ls ih =>
    intro P S acc fuel hwf hfuel
    have hlcons := nameBody_cons l ls
    have hlen1 := length_nameBody_cons l ls
    obtain ⟨f, rfl⟩ : ∃ f, fuel = f + 1 := ⟨fuel - 1, by omega⟩
    obtain ⟨hl, hl63⟩ := hwf l (by simp)
    have hl0 : l.length ≠ 0 := by simpa [List.length_eq_zero] using hl
    have hshape : nameBody (l :: ls) ++ 0 :: S = l.length :: (l ++ (nameBody ls ++ 0 :: S)) := by
      rw [hlcons]; simp [List.append_assoc]
    rw [hshape]
    have hget : (P ++ l.length :: (l ++ (nameBody ls ++ 0 :: S)))[P.length]? = some l.length :=
      getElem?_append_mid _ _ _
    have hnotptr : ¬(l.length &&& 192 = 192) := by
      rw [le63_land192 l.length hl63]; omega
    have hbound : P.length + l.length + 1 ≤ (P ++ l.length :: (l ++ (nameBody ls ++ 0 :: S))).length := by
      simp; omega
    have hdropP : (P ++ l.length :: (l ++ (nameBody ls ++ 0 :: S))).drop P.length
        = l.length :: (l ++ (nameBody ls ++ 0 :: S)) := List.drop_left P _
    have htakel : (l.length :: (l ++ (nameBody ls ++ 0 :: S))).take (l.length + 1)
        = l.length :: l := by
      rw [List.take_succ_cons, List.take_left]
    simp only [chaseInnerAux, hget, hl0, if_neg hl0, if_neg hnotptr, if_pos hbound,
      hdropP, htakel]
    have hre : P ++ l.length :: (l ++ (nameBody ls ++ 0 :: S))
        = (P ++ l.length :: l) ++ (nameBody ls ++ 0 :: S) := by
      simp [List.append_assoc]
    have hidx : P.length + l.length + 1 = (P ++ l.length :: l).length := by
      simp; omega
    rw [hre, hidx, ih (P ++ l.length :: l) S (acc ++ l.length :: l) f
      (fun l' h' => hwf l' (by simp [h'])) (by omega)]
    rw [hlcons]
    simp [List.append_assoc]

/-- Claim C8: for a message successfully parsed from its own raw packet whose
question name is a plain label run (no compression pointers), decoding the
2-byte name `[0xC0, 12]` — a pointer to the canonical question-name offset 12 —
gives the same output on the fast path (the cached `Domain`) as on the general
pointer-chasing path: `DecodeName` and its fast-path-free variant agree. -/
theorem c8_fastpath_eq_general (hd : List Nat) (labels : List (List Nat))
    (t1 t2 c1 c2 : Nat) (rest : List Nat) (dst0 : Message) (msg : Message)
    (hhd : hd.length = 12) (hqd : hd.getD 4 0 * 256 + hd.getD 5 0 = 1)
    (hwf : wfLabels labels)
    (hparse : parseMessage dst0 (hd ++ encodeLabels labels ++ t1 :: t2 :: c1 :: c2 :: rest) true
      = .ok msg) :
    ∀ (fuel : Nat) (dst : List Nat), 2 ≤ fuel →
      decodeName msg fuel dst [192, 12] = decodeNameGeneral msg fuel dst [192, 12] := by
  intro fuel dst hfuel
  rw [parseMessage_wf hd labels t1 t2 c1 c2 rest dst0 true hhd hqd hwf] at hparse
  injection hparse with hmsg
  subst hmsg
  obtain ⟨hne, hall⟩ := hwf
  obtain ⟨l, ls, rfl⟩ := List.exists_cons_of_ne_nil hne
  obtain ⟨f, rfl⟩ : ∃ f, fuel = f + 2 := ⟨fuel - 2, by omega⟩
  simp only [decodeName, decodeNameGeneral, decodeNameCore]
  norm_num
  have hoff : (192 &&& 63) <<< 8 + 12 = 12 := by decide
  rw [hoff]
  have hshape : hd ++ (encodeLabels (l :: ls) ++ t1 :: t2 :: c1 :: c2 :: rest)
      = hd ++ (nameBody (l :: ls) ++ 0 :: (t1 :: t2 :: c1 :: c2 :: rest)) := by
    rw [encodeLabels]
    simp [List.append_assoc]
  have hstep : chaseInner (hd ++ (encodeLabels (l :: ls) ++ t1 :: t2 :: c1 :: c2 :: rest)) 12 dst
      = .done (dst ++ (nameBody (l :: ls) ++ [0])) := by
    unfold chaseInner
    rw [hshape, ← hhd]
    exact chaseInnerAux_labels (l :: ls) hd _ dst _
      (fun l' h' => ⟨(hall l' h').1, (hall l' h').2.1⟩)
      (by simp; omega)
  have hloop : chaseLoop (hd ++ (encodeLabels (l :: ls) ++ t1 :: t2 :: c1 :: c2 :: rest))
      (f + 2) 12 dst = some (.out (dst ++ (nameBody (l :: ls) ++ [0]))) := by
    simp [chaseLoop, hstep]
  have hdot : dotRewrite (dst ++ (nameBody (l :: ls) ++ [0])) dst.length
      = some (dst ++ dotTail (l :: ls) ++ [0]) := by
    unfold dotRewrite
    have hEnc : nameBody (l :: ls) ++ [0] = encodeLabels (l :: ls) := rfl
    rw [hEnc]
    exact dotRewriteAux_labels (l :: ls) dst _ (fun l' h' => (hall l' h').1)
      (by simp [encodeLabels]; omega)
  simp only [hloop, hdot]
  have hl : l ≠ [] := (hall l (by simp)).1
  have hlpos : 0 < l.length := List.length_pos.mpr hl
  have hdt : dotTail (l :: ls) = 46 :: (l ++ dotTail ls) := dotTail_cons l ls
  have hguard : dst.length + 2 ≤ (dst ++ dotTail (l :: ls) ++ [0]).length := by
    rw [hdt]; simp; omega
  rw [if_pos hguard]
  have hsplit : dst ++ dotTail (l :: ls) ++ [0] = dst ++ (dotTail (l :: ls) ++ [0]) := by
    simp [List.append_assoc]
  have htake : (dst ++ dotTail (l :: ls) ++ [0]).take dst.length = dst := by
    rw [hsplit, List.take_left]
  have hdrop : (dst ++ dotTail (l :: ls) ++ [0]).drop (dst.length + 1)
      = (l ++ dotTail ls) ++ [0] := by
    rw [hsplit, hdt]
    have : dst ++ (46 :: (l ++ dotTail ls) ++ [0]) = (dst ++ [46]) ++ ((l ++ dotTail ls) ++ [0]) := by
      simp [List.append_assoc]
    rw [this]
    have hlen : dst.length + 1 = (dst ++ [46]).length := by simp
    rw [hlen, List.drop_left]
  rw [htake, hdrop, List.dropLast_concat]
  rfl

/-- Witness for C8: the hypotheses hold and the equivalence is applied at the
concrete parsed packet for question name `a.b`, with fuel 2. -/
theorem c8_fastpath_eq_general_witness :
    (([0, 0, 0, 0, 0, 1, 0, 0, 0, 0, 0, 0] : List Nat).length = 12 ∧
      ([0, 0, 0, 0, 0, 1, 0, 0, 0, 0, 0, 0] : List Nat).getD 4 0 * 256 +
        ([0, 0, 0, 0, 0, 1, 0, 0, 0, 0, 0, 0] : List Nat).getD 5 0 = 1 ∧
      wfLabels [[97], [98]] ∧
      parseMessage emptyMessage
        ([0, 0, 0, 0, 0, 1, 0, 0, 0, 0, 0, 0] ++ encodeLabels [[97], [98]] ++
          0 :: 1 :: 0 :: 1 :: []) true
        = .ok { raw := [0, 0, 0, 0, 0, 1, 0, 0, 0, 0, 0, 0, 1, 97, 1, 98, 0, 0, 1, 0, 1],
                domain := [97, 46, 98], header := ⟨0, 0, 1, 0, 0, 0⟩,
                question := ⟨some [1, 97, 1, 98, 0], 1, 1⟩ } ∧ 2 ≤ 2) ∧
    decodeName
        { raw := [0, 0, 0, 0, 0, 1, 0, 0, 0, 0, 0, 0, 1, 97, 1, 98, 0, 0, 1, 0, 1],
          domain := [97, 46, 98], header := ⟨0, 0, 1, 0, 0, 0⟩,
          question := ⟨some [1, 97, 1, 98, 0], 1, 1⟩ } 2 [] [192, 12]
      = decodeNameGeneral
          { raw := [0, 0, 0, 0, 0, 1, 0, 0, 0, 0, 0, 0, 1, 97, 1, 98, 0, 0, 1, 0, 1],
            domain := [97, 46, 98], header := ⟨0, 0, 1, 0, 0, 0⟩,
            question := ⟨some [1, 97, 1, 98, 0], 1, 1⟩ } 2 [] [192, 12] :=
  ⟨⟨by decide, by decide, by decide, by decide, by decide⟩,
    c8_fastpath_eq_general [0, 0, 0, 0, 0, 1, 0, 0, 0, 0, 0, 0] [[97], [98]] 0 1 0 1 []
      emptyMessage _ (by decide) (by decide) (by decide) (by decide) 2 [] (by decide)⟩

/-- One resource record as passed to the visit callback: name bytes, type,
class, ttl and rdata exactly as on the wire. -/
structure RR where
  name : List Nat
  typ : Nat
  cls : Nat
  ttl : Nat
  rdata : List Nat
deriving DecidableEq, Repr

/-- Outcome of `VisitResourceRecords` together with the trace of callback
invocations, in order: normal return, the ErrInvalidAnswer error, or a Go
panic (index or slice out of range). -/
inductive VisitOut where
  | ok (trace : List RR)
  | invalidAnswer (trace : List RR)
  | crashed (trace : List RR)
deriving DecidableEq, Repr

/-- The name scan of the record loop: `for j, b := range payload` breaking at
the first byte with both top bits set (a pointer, position plus `true`) or at
the first zero byte (position plus `false`); `none` when neither occurs. -/
def findNameEnd : List Nat → Option (Nat × Bool)
  | [] => none
  | b :: bs =>
    if b &&& 192 = 192 then some (0, true)
    else if b = 0 then some (0, false)
    else (findNameEnd bs).map (fun p => (p.1 + 1, p.2))

/-- The record loop of `VisitResourceRecords`, iterated `n` times (`n` is
ANCOUNT): scan the record name, read TYPE/CLASS/TTL/RDLENGTH from the next 10
bytes, slice RDATA, call the callback, stop early when it returns false. Each
out-of-range index or slice of the Go source is an explicit `crashed`. -/
def visitLoop (f : RR → Bool) : Nat → List Nat → VisitOut
  | 0, _ => .ok []
  | n + 1, payload =>
    match findNameEnd payload with
    | none => .invalidAnswer []
    | some (j, isPtr) =>
      let cut := if isPtr then j + 2 else j + 1
      if cut > payload.length then .crashed [] else
      let name := payload.take cut
      let rest := payload.drop cut
      if rest.length < 10 then .crashed [] else
      let typ := rest.getD 0 0 * 256 + rest.getD 1 0
      let cls := rest.getD 2 0 * 256 + rest.getD 3 0
      let ttl := rest.getD 4 0 * 16777216 + rest.getD 5 0 * 65536 +
                 rest.getD 6 0 * 256 + rest.getD 7 0
      let len := rest.getD 8 0 * 256 + rest.getD 9 0
      if 10 + len > rest.length then .crashed [] else
      let rr : RR := ⟨name, typ, cls, ttl, (rest.drop 10).take len⟩
      if f rr then
        match visitLoop f n (rest.drop (10 + len)) with
        | .ok t => .ok (rr :: t)
        | .invalidAnswer t => .invalidAnswer (rr :: t)
        | .crashed t => .crashed (rr :: t)
      else .ok [rr]

/-- Byte length of the question name view (0 for a Go nil slice). -/
def nameLen (msg : Message) : Nat := (msg.question.name.getD []).length

/-- `Message.VisitResourceRecords` of message.go: error on ANCOUNT = 0, then
walk the answer section starting right after the question
(`msg.Raw[16+len(msg.Question.Name):]`, whose slicing itself can panic). -/
def visitResourceRecords (msg : Message) (f : RR → Bool) : VisitOut :=
  if msg.header.anCount = 0 then .invalidAnswer []
  else if 16 + nameLen msg > msg.raw.length then .crashed []
  else visitLoop f msg.header.anCount (msg.raw.drop (16 + nameLen msg))

/-- `Message.VisitAdditionalRecords` of message.go: the body is exactly
`panic("not implemented")`, modelled as the unconditional crash outcome. -/
def visitAdditionalRecords (_ : Message) (_ : RR → Bool) : VisitOut := .crashed []

/-- Claim C9: refuted on the code. The additional-records walk does not return
an explicit "unsupported" error value: for every message and callback it
executes `panic("not implemented")` and aborts. -/
theorem c9_additional_records_crash :
    ∀ (msg : Message) (f : RR → Bool), visitAdditionalRecords msg f = .crashed [] :=
  fun _ _ => rfl

/-- A parsed message whose single answer record is truncated: after the
record's (root) name only the empty tail remains, fewer than the 10 bytes
needed for TYPE/CLASS/TTL/RDLENGTH. -/
def msgC4 : Message :=
  { raw := [0, 0, 0, 0, 0, 1, 0, 1, 0, 0, 0, 0] ++ [1, 97, 0] ++ [0, 1, 0, 1] ++ [0],
    domain := [97], header := ⟨0, 0, 1, 1, 0, 0⟩, question := ⟨some [1, 97, 0], 1, 1⟩ }

/-- Claim C4: refuted on the code. On a truncated answer record (fewer than 10
bytes after the record name), `VisitResourceRecords` does not return
ErrInvalidAnswer: it reads `payload[0]`..`payload[9]` unguarded and panics with
an index out of range, for every callback. -/
theorem c4_truncated_record_crash :
    ∀ (f : RR → Bool), visitResourceRecords msgC4 f = .crashed [] :=
  fun _ => rfl

/-- The expected callback trace on a record list: every record in order while
the callback keeps returning true, including the record on which it first
returns false. -/
def expectedTrace (f : RR → Bool) : List RR → List RR
  | [] => []
  | r :: rs => if f r then r :: expectedTrace f rs else [r]

/-- Bytes the name scan passes over without stopping: no pointer tag, not zero. -/
def cleanByte (b : Nat) : Prop := b &&& 192 ≠ 192 ∧ b ≠ 0

/-- Well-formed wire name for the record walk: clean bytes ending either in a
2-byte compression pointer or in the zero terminator. -/
def wfName (n : List Nat) : Prop :=
  (∃ pre b1 b2, n = pre ++ [b1, b2] ∧ (∀ b ∈ pre, cleanByte b) ∧ b1 &&& 192 = 192) ∨
  (∃ pre, n = pre ++ [0] ∧ ∀ b ∈ pre, cleanByte b)

/-- Wire encoding of a resource record: name, TYPE, CLASS, TTL and RDLENGTH
big-endian, then the RDATA bytes. -/
def encodeRR (r : RR) : List Nat :=
  r.name ++ [r.typ / 256, r.typ % 256, r.cls / 256, r.cls % 256,
             r.ttl / 16777216, r.ttl / 65536 % 256, r.ttl / 256 % 256, r.ttl % 256,
             r.rdata.length / 256, r.rdata.length % 256] ++ r.rdata

/-- Well-formed resource record: a well-formed name and 16/32-bit field bounds. -/
def wfRR (r : RR) : Prop :=
  wfName r.name ∧ r.typ < 65536 ∧ r.cls < 65536 ∧ r.ttl < 4294967296 ∧
    r.rdata.length < 65536

/-- The name scan skips a run of clean bytes, shifting the found position. -/
lemma findNameEnd_clean_append (pre : List Nat) (hpre : ∀ b ∈ pre, cleanByte b)
    (x : List Nat) :
    findNameEnd (pre ++ x) = (findNameEnd x).map (fun p => (p.1 + pre.length, p.2)) := by
  induction pre with
  | nil => cases h : findNameEnd x <;> simp [h]
  | cons a as ih =>
    obtain ⟨h1, h2⟩ := hpre a (by simp)
    have ih' := ih (fun b hb => hpre b (by simp [hb]))
    simp only [List.cons_append, findNameEnd, if_neg h1, if_neg h2, ih']
    cases h : findNameEnd x with
    | none => simp [h, ih']
    | some p => simp [h, ih']; omega

/-- On a well-formed name followed by anything, the scan stops exactly at the
end of the name: the cut position equals the name's length. -/
lemma findNameEnd_wfName (n : List Nat) (h : wfName n) (s : List Nat) :
    ∃ j isPtr, findNameEnd (n ++ s) = some (j, isPtr) ∧
      (if isPtr then j + 2 else j + 1) = n.length := by
  rcases h with ⟨pre, b1, b2, rfl, hclean, hptr⟩ | ⟨pre, rfl, hclean⟩
  · refine ⟨pre.length, true, ?_, by simp⟩
    have hre : (pre ++ [b1, b2]) ++ s = pre ++ (b1 :: b2 :: s) := by simp
    rw [hre, findNameEnd_clean_append pre hclean]
    simp [findNameEnd, hptr]
  · refine ⟨pre.length, false, ?_, by simp⟩
    have hre : (pre ++ [0]) ++ s = pre ++ (0 :: s) := by simp
    rw [hre, findNameEnd_clean_append pre hclean]
    have h192 : ¬((0 : Nat) &&& 192 = 192) := by decide
    simp [findNameEnd, h192]

/-- The record loop on `n` well-formed encoded records runs the callback on the
records in order, reconstructing every field exactly, and stops early without
error when the callback returns false. -/
lemma visitLoop_records (rs : List RR) :
    ∀ (extra : List Nat) (f : RR → Bool), (∀ r ∈ rs, wfRR r) →
    visitLoop f rs.length ((rs.map encodeRR).flatten ++ extra)
      = .ok (expectedTrace f rs) := by
  induction rs with
  | nil => intro extra f _; rfl
  | cons r rs ih =>
    intro extra f hwf
    obtain ⟨rn, rt, rc, rtt, rrd⟩ := r
    obtain ⟨hname, htyp, hcls, httl, hlen⟩ := hwf ⟨rn, rt, rc, rtt, rrd⟩ (by simp)
    simp only at hname htyp hcls httl hlen
    have hshape : ((⟨rn, rt, rc, rtt, rrd⟩ :: rs).map encodeRR).flatten ++ extra
        = rn ++ ([rt / 256, rt % 256, rc / 256, rc % 256,
            rtt / 16777216, rtt / 65536 % 256, rtt / 256 % 256, rtt % 256,
            rrd.length / 256, rrd.length % 256] ++
            (rrd ++ ((rs.map encodeRR).flatten ++ extra))) := by
      simp [encodeRR, List.append_assoc]
    obtain ⟨j, isPtr, hfind, hcut⟩ := findNameEnd_wfName rn hname
      ([rt / 256, rt % 256, rc / 256, rc % 256,
        rtt / 16777216, rtt / 65536 % 256, rtt / 256 % 256, rtt % 256,
        rrd.length / 256, rrd.length % 256] ++
        (rrd ++ ((rs.map encodeRR).flatten ++ extra)))
    have hlc : ((⟨rn, rt, rc, rtt, rrd⟩ : RR) :: rs).length = rs.length + 1 := rfl
    rw [hlc, hshape]
    simp only [visitLoop, hfind, hcut]
    set Y := (rs.map encodeRR).flatten ++ extra with hY
    set B := rrd ++ Y with hB
    set S := [rt / 256, rt % 256, rc / 256, rc % 256,
      rtt / 16777216, rtt / 65536 % 256, rtt / 256 % 256, rtt % 256,
      rrd.length / 256, rrd.length % 256] ++ B with hS
    rw [List.take_left, List.drop_left]
    have hSlen : S.length = 10 + rrd.length + Y.length := by
      rw [hS, hB]; simp; omega
    rw [if_neg (by simp)]
    rw [if_neg (by omega)]
    have hg8 : S.getD 8 0 = rrd.length / 256 := by rw [hS]; rfl
    have hg9 : S.getD 9 0 = rrd.length % 256 := by rw [hS]; rfl
    have hg0 : S.getD 0 0 = rt / 256 := by rw [hS]; rfl
    have hg1 : S.getD 1 0 = rt % 256 := by rw [hS]; rfl
    have hg2 : S.getD 2 0 = rc / 256 := by rw [hS]; rfl
    have hg3 : S.getD 3 0 = rc % 256 := by rw [hS]; rfl
    have hg4 : S.getD 4 0 = rtt / 16777216 := by rw [hS]; rfl
    have hg5 : S.getD 5 0 = rtt / 65536 % 256 := by rw [hS]; rfl
    have hg6 : S.getD 6 0 = rtt / 256 % 256 := by rw [hS]; rfl
    have hg7 : S.getD 7 0 = rtt % 256 := by rw [hS]; rfl
    rw [hg0, hg1, hg2, hg3, hg4, hg5, hg6, hg7, hg8, hg9]
    have hrt : rt / 256 * 256 + rt % 256 = rt := by omega
    have hrc : rc / 256 * 256 + rc % 256 = rc := by omega
    have hrtt : rtt / 16777216 * 16777216 + rtt / 65536 % 256 * 65536 +
        rtt / 256 % 256 * 256 + rtt % 256 = rtt := by omega
    have hrl : rrd.length / 256 * 256 + rrd.length % 256 = rrd.length := by omega
    rw [hrt, hrc, hrtt, hrl]
    rw [if_neg (by omega)]
    have hdata : (S.drop 10).take rrd.length = rrd := by
      rw [hS]
      have hdrop10 : ([rt / 256, rt % 256, rc / 256, rc % 256,
          rtt / 16777216, rtt / 65536 % 256, rtt / 256 % 256, rtt % 256,
          rrd.length / 256, rrd.length % 256] ++ B).drop 10 = B := rfl
      rw [hdrop10, hB, List.take_left]
    have hnext : S.drop (10 + rrd.length) = Y := by
      have hre : S = ([rt / 256, rt % 256, rc / 256, rc % 256,
          rtt / 16777216, rtt / 65536 % 256, rtt / 256 % 256, rtt % 256,
          rrd.length / 256, rrd.length % 256] ++ rrd) ++ Y := by
        rw [hS, hB]; simp [List.append_assoc]
      have hlen10 : 10 + rrd.length = ([rt / 256, rt % 256, rc / 256, rc % 256,
          rtt / 16777216, rtt / 65536 % 256, rtt / 256 % 256, rtt % 256,
          rrd.length / 256, rrd.length % 256] ++ rrd).length := by simp; omega
      rw [hre, hlen10, List.drop_left]
    rw [hdata, hnext]
    cases hf : f ⟨rn, rt, rc, rtt, rrd⟩ with
    | false => simp [expectedTrace, hf]
    | true =>
      rw [hY, ih extra f (fun r' h' => hwf r' (by simp [h']))]
      simp [expectedTrace, hf]

/-- Claim C3: `VisitResourceRecords` returns ErrInvalidAnswer when ANCOUNT is
zero; and when the answer section holds ANCOUNT well-formed records, the
callback is invoked exactly ANCOUNT times in packet order, each invocation
receiving the record's name, type, class, ttl and rdata exactly as encoded on
the wire, stopping immediately without error once a callback returns false
(the callback trace is the expected one). -/
theorem c3_visit_answers (msg : Message) (f : RR → Bool) :
    (msg.header.anCount = 0 → visitResourceRecords msg f = .invalidAnswer []) ∧
    (∀ (rs : List RR) (pre extra : List Nat), rs ≠ [] →
      msg.header.anCount = rs.length →
      pre.length = 16 + nameLen msg →
      msg.raw = pre ++ ((rs.map encodeRR).flatten ++ extra) →
      (∀ r ∈ rs, wfRR r) →
      visitResourceRecords msg f = .ok (expectedTrace f rs)) := by
  constructor
  · intro h0
    simp [visitResourceRecords, h0]
  · intro rs pre extra hne hn hpre hraw hwf
    have hn0 : msg.header.anCount ≠ 0 := by
      rw [hn]
      exact fun hc => hne (List.eq_nil_of_length_eq_zero hc)
    unfold visitResourceRecords
    rw [if_neg hn0]
    have hguard : ¬(16 + nameLen msg > msg.raw.length) := by
      rw [hraw, List.length_append]
      omega
    rw [if_neg hguard]
    have hdrop : msg.raw.drop (16 + nameLen msg) = (rs.map encodeRR).flatten ++ extra := by
      rw [hraw, ← hpre, List.drop_left]
    rw [hdrop, hn]
    exact visitLoop_records rs extra f hwf

/-- The single answer record of the concrete C3 scenario: a pointer name to
offset 12, type A, class IN, ttl 300, rdata `[8, 8, 8, 8]`. -/
def rrC3 : RR := ⟨[192, 12], 1, 1, 300, [8, 8, 8, 8]⟩

/-- Header plus question bytes preceding the answer section of the C3 scenario. -/
def preC3 : List Nat := [0, 0, 0, 0, 0, 1, 0, 1, 0, 0, 0, 0, 1, 97, 0, 0, 1, 0, 1]

/-- A parsed message whose answer section holds exactly the record `rrC3`. -/
def msgC3 : Message :=
  { raw := preC3 ++ (([rrC3].map encodeRR).flatten ++ []), domain := [97],
    header := ⟨0, 0, 1, 1, 0, 0⟩, question := ⟨some [1, 97, 0], 1, 1⟩ }

/-- Witness for C3: both arms applied concretely — the ANCOUNT = 0 error on the
empty message, and the one-record walk of the concrete scenario (ttl 300,
rdata `[8, 8, 8, 8]`), whose callback trace is exactly that record. -/
theorem c3_visit_answers_witness :
    visitResourceRecords emptyMessage (fun _ => true) = .invalidAnswer [] ∧
    (([rrC3] : List RR) ≠ [] ∧ msgC3.header.anCount = [rrC3].length ∧
      preC3.length = 16 + nameLen msgC3 ∧
      msgC3.raw = preC3 ++ (([rrC3].map encodeRR).flatten ++ [])) ∧
    visitResourceRecords msgC3 (fun _ => true) = .ok [rrC3] :=
  ⟨(c3_visit_answers emptyMessage (fun _ => true)).1 rfl,
    ⟨by decide, by decide, by decide, by decide⟩,
    (c3_visit_answers msgC3 (fun _ => true)).2 [rrC3] preC3 [] (by decide) (by decide)
      (by decide) (by decide)
      (fun r hr => by
        have hr' : r = rrC3 := List.mem_singleton.mp hr
        subst hr'
        exact ⟨Or.inl ⟨[], 192, 12, rfl, by simp, by decide⟩,
          by decide, by decide, by decide, by decide⟩)⟩

/-- Header of the legacy `Request` struct (request.go): individual flag fields
instead of the packed word. -/
structure RequestHeader where
  id : Nat
  qr : Nat
  opcode : Nat
  aa : Nat
  tc : Nat
  rd : Nat
  ra : Nat
  z : Nat
  rcode : Nat
  qdCount : Nat
  anCount : Nat
  nsCount : Nat
  arCount : Nat
deriving DecidableEq, Repr

/-- Question of the legacy `Request` struct: raw name bytes, type, class. -/
structure RequestQuestion where
  name : List Nat
  type : Nat
  cls : Nat
deriving DecidableEq, Repr

/-- The legacy `Request` struct of request.go. -/
structure Request where
  header : RequestHeader
  question : RequestQuestion
deriving DecidableEq, Repr

/-- Outcome of `ParseRequest`: success or a declared error (this parser has no
out-of-range access). -/
inductive ReqOut where
  | ok (req : Request)
  | err (e : DnsErr)
deriving DecidableEq, Repr

/-- `AppendRequest` of request.go: pack the bit fields into header bytes 2 and 3
exactly as the source shifts them (each Go byte shift wraps mod 256), append the
counts and, when QDCOUNT is nonzero, the question. -/
def appendRequest (dst : List Nat) (req : Request) : List Nat :=
  let b2 := ((req.header.qr <<< 7) % 256) ||| ((req.header.opcode <<< 3) % 256) |||
            ((req.header.aa <<< 2) % 256) ||| ((req.header.tc <<< 1) % 256) |||
            (req.header.rd % 256)
  let b3 := ((req.header.ra <<< 7) % 256) ||| ((req.header.z <<< 6) % 256) |||
            (req.header.rcode % 256)
  let header : List Nat :=
    [(req.header.id >>> 8) % 256, req.header.id % 256, b2, b3,
     (req.header.qdCount >>> 8) % 256, req.header.qdCount % 256,
     (req.header.anCount >>> 8) % 256, req.header.anCount % 256,
     (req.header.nsCount >>> 8) % 256, req.header.nsCount % 256,
     (req.header.arCount >>> 8) % 256, req.header.arCount % 256]
  let dst := dst ++ header
  if req.header.qdCount ≠ 0 then
    dst ++ req.question.name ++
      [(req.question.type >>> 8) % 256, req.question.type % 256,
       (req.question.cls >>> 8) % 256, req.question.cls % 256]
  else dst

/-- `ParseRequest` of request.go: unpack the header bit fields from bytes 2 and
3, reject QDCOUNT ≠ 1, scan the QNAME terminator, read QTYPE and QCLASS. -/
def parseRequest (payload : List Nat) : ReqOut :=
  if payload.length < 12 then .err .invalidHeader else
  let id := payload.getD 0 0 * 256 + payload.getD 1 0
  let b2 := payload.getD 2 0
  let rd := b2 &&& 1
  let tc := (b2 >>> 1) &&& 1
  let aa := (b2 >>> 2) &&& 1
  let opcode := (b2 >>> 3) &&& 15
  let qr := (b2 >>> 7) &&& 1
  let b3 := payload.getD 3 0
  let rcode := b3 &&& 15
  let z := (b3 >>> 4) &&& 7
  let ra := (b3 >>> 7) &&& 1
  let qd := payload.getD 4 0 * 256 + payload.getD 5 0
  let an := payload.getD 6 0 * 256 + payload.getD 7 0
  let ns := payload.getD 8 0 * 256 + payload.getD 9 0
  let ar := payload.getD 10 0 * 256 + payload.getD 11 0
  if qd ≠ 1 then .err .invalidHeader else
  let p := payload.drop 12
  let i := (findZero p).getD (p.length - 1)
  if i + 5 > p.length then .err .invalidQuestion else
  let name := p.take (i + 1)
  let p2 := p.drop i
  let cls := p2.getD 3 0 * 256 + p2.getD 4 0
  let typ := p2.getD 1 0 * 256 + p2.getD 2 0
  .ok { header := ⟨id, qr, opcode, aa, tc, rd, ra, z, rcode, qd, an, ns, ar⟩,
        question := ⟨name, typ, cls⟩ }

/-- A request whose header has Z = 1 (all other flags zero, RD = 1, QDCOUNT = 1)
and a valid one-label question. -/
def reqC5 : Request :=
  { header := ⟨4660, 0, 0, 0, 0, 1, 0, 1, 0, 1, 0, 0, 0⟩,
    question := ⟨[1, 97, 0], 1, 1⟩ }

/-- Claim C5: refuted on the code. Encoding a header with Z = 1 via
`AppendRequest` and re-parsing with `ParseRequest` yields Z = 4, not Z = 1:
`AppendRequest` packs Z at shift 6 (`(7 - 1)`) of byte 3 while its own layout
comment and `ParseRequest` place the 3-bit Z field at bits 4-6, so the
round-trip changes Z (every other field of this request round-trips). -/
theorem c5_z_roundtrip_bug :
    parseRequest (appendRequest [] reqC5)
      = .ok { header := ⟨4660, 0, 0, 0, 0, 1, 0, 4, 0, 1, 0, 0, 0⟩,
              question := ⟨[1, 97, 0], 1, 1⟩ } := by decide

/-- Split a byte string on `'.'` (46), keeping empty segments. -/
def splitOnDot : List Nat → List (List Nat)
  | [] => [[]]
  | b :: bs =>
    if b = 46 then [] :: splitOnDot bs
    else
      match splitOnDot bs with
      | [] => [[b]]
      | l :: ls => (b :: l) :: ls

/-- Modelled from the spec: `EncodeDomain` is called by `SetQustion` but its
definition is not part of the given sources. Per the spec's name-codec encode
contract, it appends to `dst` the domain split on `'.'` as length-prefixed
labels followed by a terminal zero byte. -/
def EncodeDomain (dst : List Nat) (domain : List Nat) : List Nat :=
  dst ++ encodeLabels (splitOnDot domain)

/-- `Message.SetQustion` of message.go. The Go source draws a random transaction
id (`fastrandn(65536)`); the draw is passed here as the explicit `id` argument.
Flag handling is exactly the source's masking: `Bits &= 0b0111111111110000`
then `Bits |= 0b0000000100000000`. -/
def setQustion (msg : Message) (id : Nat) (domain : List Nat) (typ cls : Nat) : Message :=
  let id16 := id % 65536
  let bits := (msg.header.bits &&& 0b0111111111110000) ||| 0b0000000100000000
  let hbytes : List Nat :=
    [(id16 >>> 8) % 256, id16 % 256, (bits >>> 8) % 256, bits % 256,
     0, 1, 0, 0, 0, 0, 0, 0]
  let raw1 := EncodeDomain hbytes domain
  let raw2 := raw1 ++ [(typ >>> 8) % 256, typ % 256, (cls >>> 8) % 256, cls % 256]
  { raw := raw2, domain := domain,
    header := ⟨id16, bits, 1, 0, 0, 0⟩,
    question := ⟨some ((raw1.drop 12).take (domain.length + 2)), typ, cls⟩ }

/-- A message whose prior flag word has only the AA bit (bit 10) set. -/
def msgC6 : Message :=
  { raw := [], domain := [], header := ⟨0, 0b0000010000000000, 0, 0, 0, 0⟩,
    question := ⟨none, 0, 0⟩ }

/-- Counterexample to C6 as stated: after `SetQustion` on a message whose prior
header had AA = 1, the AA bit of the flag word is still 1, not 0 — the
source's mask `0b0111111111110000` preserves AA, TC, RA, Opcode and Z. -/
theorem c6_aa_not_cleared :
    (((setQustion msgC6 0 [97] 1 1).header.bits >>> 10) &&& 1) = 1 := by decide

/-- Bits of a field window that the mask keeps and the or-constant misses are
preserved by `x &&& M ||| V`. -/
lemma maskor_preserved (x M V k w : Nat)
    (hM : ∀ j, j < w → M.testBit (k + j) = true)
    (hV : ∀ j, j < w → V.testBit (k + j) = false) :
    ((x &&& M ||| V) >>> k) &&& (2 ^ w - 1) = (x >>> k) &&& (2 ^ w - 1) := by
  apply Nat.eq_of_testBit_eq
  intro j
  rcases Nat.lt_or_ge j w with hj | hj
  · simp [Nat.testBit_land, Nat.testBit_lor, Nat.testBit_shiftRight,
      Nat.testBit_two_pow_sub_one, hj, hM j hj, hV j hj]
  · simp [Nat.testBit_land, Nat.testBit_two_pow_sub_one, show ¬(j < w) from by omega]

/-- Bits of a field window that both the mask and the or-constant miss are
cleared by `x &&& M ||| V`. -/
lemma maskor_cleared (x M V k w : Nat)
    (hM : ∀ j, j < w → M.testBit (k + j) = false)
    (hV : ∀ j, j < w → V.testBit (k + j) = false) :
    ((x &&& M ||| V) >>> k) &&& (2 ^ w - 1) = 0 := by
  apply Nat.eq_of_testBit_eq
  intro j
  rcases Nat.lt_or_ge j w with hj | hj
  · simp [Nat.testBit_land, Nat.testBit_lor, Nat.testBit_shiftRight,
      Nat.testBit_two_pow_sub_one, hj, hM j hj, hV j hj, Nat.zero_testBit]
  · simp [Nat.testBit_land, Nat.testBit_two_pow_sub_one, Nat.zero_testBit,
      show ¬(j < w) from by omega]

/-- Bits of a field window that the or-constant fills are set by `x &&& M ||| V`. -/
lemma maskor_set (x M V k w : Nat)
    (hV : ∀ j, j < w → V.testBit (k + j) = true) :
    ((x &&& M ||| V) >>> k) &&& (2 ^ w - 1) = 2 ^ w - 1 := by
  apply Nat.eq_of_testBit_eq
  intro j
  rcases Nat.lt_or_ge j w with hj | hj
  · simp [Nat.testBit_land, Nat.testBit_lor, Nat.testBit_shiftRight,
      Nat.testBit_two_pow_sub_one, hj, hV j hj]
  · simp [Nat.testBit_land, Nat.testBit_two_pow_sub_one, show ¬(j < w) from by omega]

lemma splitOnDot_ne_nil (d : List Nat) : splitOnDot d ≠ [] := by
  cases d with
  | nil => simp [splitOnDot]
  | cons b bs =>
    simp only [splitOnDot]
    split
    · simp
    · cases splitOnDot bs <;> simp

/-- The label encoding of a split domain is exactly two bytes longer than the
domain: one length byte replacing the virtual leading dot, plus the terminator. -/
lemma length_encodeLabels_split (d : List Nat) :
    (encodeLabels (splitOnDot d)).length = d.length + 2 := by
  induction d with
  | nil => rfl
  | cons b bs ih =>
    by_cases hb : b = 46
    · subst hb
      simp only [splitOnDot, if_pos rfl]
      simp [encodeLabels, nameBody, labelEnc] at ih ⊢
      omega
    · obtain ⟨l, ls, hsp⟩ := List.exists_cons_of_ne_nil (splitOnDot_ne_nil bs)
      rw [hsp] at ih
      simp only [splitOnDot, if_neg hb, hsp]
      simp [encodeLabels, nameBody, labelEnc] at ih ⊢
      omega

/-- Claim C6 (amended): after `Message.SetQustion(domain, typ, class)` the flag
word has QR = 0 (bit 15), RD = 1 (bit 8) and RCODE = 0 (bits 0-3); Opcode, AA,
TC, RA and Z are *preserved* from the prior header state (the source's mask
keeps bits 4-14), not zeroed; QDCOUNT is 1 and the other counts 0; the domain
is encoded into the raw buffer (spec-modelled `EncodeDomain`), the question
name views it, and QTYPE/QCLASS and the cached domain are recorded. -/
theorem c6_setqustion_amended (msg : Message) (id : Nat) (domain : List Nat) (typ cls : Nat) :
    (((setQustion msg id domain typ cls).header.bits >>> 15) &&& 1 = 0 ∧
      ((setQustion msg id domain typ cls).header.bits >>> 8) &&& 1 = 1 ∧
      (setQustion msg id domain typ cls).header.bits &&& 15 = 0) ∧
    (((setQustion msg id domain typ cls).header.bits >>> 11) &&& 15
        = (msg.header.bits >>> 11) &&& 15 ∧
      ((setQustion msg id domain typ cls).header.bits >>> 10) &&& 1
        = (msg.header.bits >>> 10) &&& 1 ∧
      ((setQustion msg id domain typ cls).header.bits >>> 9) &&& 1
        = (msg.header.bits >>> 9) &&& 1 ∧
      ((setQustion msg id domain typ cls).header.bits >>> 7) &&& 1
        = (msg.header.bits >>> 7) &&& 1 ∧
      ((setQustion msg id domain typ cls).header.bits >>> 4) &&& 7
        = (msg.header.bits >>> 4) &&& 7) ∧
    ((setQustion msg id domain typ cls).header.qdCount = 1 ∧
      (setQustion msg id domain typ cls).header.anCount = 0 ∧
      (setQustion msg id domain typ cls).header.nsCount = 0 ∧
      (setQustion msg id domain typ cls).header.arCount = 0) ∧
    (setQustion msg id domain typ cls).raw
      = EncodeDomain [((id % 65536) >>> 8) % 256, (id % 65536) % 256,
          ((setQustion msg id domain typ cls).header.bits >>> 8) % 256,
          (setQustion msg id domain typ cls).header.bits % 256,
          0, 1, 0, 0, 0, 0, 0, 0] domain ++
          [(typ >>> 8) % 256, typ % 256, (cls >>> 8) % 256, cls % 256] ∧
    (setQustion msg id domain typ cls).question.name
      = some (encodeLabels (splitOnDot domain)) ∧
    (setQustion msg id domain typ cls).question.type = typ ∧
    (setQustion msg id domain typ cls).question.cls = cls ∧
    (setQustion msg id domain typ cls).domain = domain := by
  have hbits : (setQustion msg id domain typ cls).header.bits
      = (msg.header.bits &&& 0b0111111111110000) ||| 0b0000000100000000 := rfl
  refine ⟨⟨?_, ?_, ?_⟩, ⟨?_, ?_, ?_, ?_, ?_⟩, ⟨rfl, rfl, rfl, rfl⟩, by rw [hbits]; rfl, ?_, rfl, rfl, rfl⟩
  · rw [hbits]
    simpa using maskor_cleared msg.header.bits 0b0111111111110000 0b0000000100000000 15 1
      (by decide) (by decide)
  · rw [hbits]
    simpa using maskor_set msg.header.bits 0b0111111111110000 0b0000000100000000 8 1
      (by decide)
  · rw [hbits]
    have h := maskor_cleared msg.header.bits 0b0111111111110000 0b0000000100000000 0 4
      (by decide) (by decide)
    simpa [Nat.shiftRight_zero] using h
  · rw [hbits]
    simpa using maskor_preserved msg.header.bits 0b0111111111110000 0b0000000100000000 11 4
      (by decide) (by decide)
  · rw [hbits]
    simpa using maskor_preserved msg.header.bits 0b0111111111110000 0b0000000100000000 10 1
      (by decide) (by decide)
  · rw [hbits]
    simpa using maskor_preserved msg.header.bits 0b0111111111110000 0b0000000100000000 9 1
      (by decide) (by decide)
  · rw [hbits]
    simpa using maskor_preserved msg.header.bits 0b0111111111110000 0b0000000100000000 7 1
      (by decide) (by decide)
  · rw [hbits]
    simpa using maskor_preserved msg.header.bits 0b0111111111110000 0b0000000100000000 4 3
      (by decide) (by decide)
  · show some ((EncodeDomain _ domain).drop 12 |>.take (domain.length + 2))
      = some (encodeLabels (splitOnDot domain))
    have hgen : ∀ (A B : List Nat), A.length = 12 → (A ++ B).drop 12 = B := by
      intro A B h
      rw [← h, List.drop_left]
    have hdrop : (EncodeDomain [((id % 65536) >>> 8) % 256, (id % 65536) % 256,
        (((msg.header.bits &&& 0b0111111111110000) ||| 0b0000000100000000) >>> 8) % 256,
        ((msg.header.bits &&& 0b0111111111110000) ||| 0b0000000100000000) % 256,
        0, 1, 0, 0, 0, 0, 0, 0] domain).drop 12 = encodeLabels (splitOnDot domain) := by
      unfold EncodeDomain
      exact hgen _ _ (by simp)
    rw [hdrop, ← length_encodeLabels_split domain, List.take_length]

/-- The backfill loop of `AppendMessage`'s QNAME encoding:
`for k := j; k >= i; k-- { if dst[k] == '.' { dst[k] = n; n = 0 } else { n++ } }`.
`lo` is the loop's lower bound `i`, the last argument the number of positions
still to visit (`k` runs from `lo + count - 1` down to `lo`), and `n` the
running label length (a Go byte, wrapping mod 256). Returns the buffer and `n`. -/
def backfill : List Nat → Nat → Nat → Nat → List Nat × Nat
  | buf, _, n, 0 => (buf, n)
  | buf, lo, n, c + 1 =>
    if buf.getD (lo + c) 0 = 46 then backfill (buf.set (lo + c) n) lo 0 c
    else backfill buf lo ((n + 1) % 256) c

/-- `AppendMessage` of message.go: header bytes, then — when QDCOUNT is nonzero —
the question name (the stored view if non-nil, else the dot-backfill encoding of
`Domain`) and QTYPE/QCLASS. -/
def appendMessage (dst : List Nat) (msg : Message) : List Nat :=
  let hbytes : List Nat :=
    [(msg.header.id >>> 8) % 256, msg.header.id % 256,
     (msg.header.bits >>> 8) % 256, msg.header.bits % 256,
     (msg.header.qdCount >>> 8) % 256, msg.header.qdCount % 256,
     (msg.header.anCount >>> 8) % 256, msg.header.anCount % 256,
     (msg.header.nsCount >>> 8) % 256, msg.header.nsCount % 256,
     (msg.header.arCount >>> 8) % 256, msg.header.arCount % 256]
  let dst1 := dst ++ hbytes
  if msg.header.qdCount ≠ 0 then
    let dst2 :=
      match msg.question.name with
      | some nm => dst1 ++ nm
      | none =>
        let buf := dst1 ++ 46 :: msg.domain
        (backfill buf dst1.length 0 (msg.domain.length + 1)).1 ++ [0]
    dst2 ++ [(msg.question.type >>> 8) % 256, msg.question.type % 256,
             (msg.question.cls >>> 8) % 256, msg.question.cls % 256]
  else dst1

/-- An outgoing message whose domain is the single label `[0]` — one byte, a
NUL, within the claim's stated label constraints (length 1-63, no dot). -/
def msgC7 : Message :=
  { raw := [], domain := [0], header := ⟨0, 0, 1, 0, 0, 0⟩, question := ⟨none, 1, 1⟩ }

/-- Counterexample to C7 as stated: serializing the message whose domain is the
single label `[0]` (backfill path, `Question.Name` nil) and re-parsing does not
return that domain — `ParseMessage` hits the out-of-range branch of its domain
loop (a Go panic), because the NUL byte inside the label terminates the QNAME
scan early. -/
theorem c7_nul_label_breaks_roundtrip :
    parseMessage emptyMessage (appendMessage [] msgC7) true = .crashed := by decide

lemma getD_append_mid (pre : List Nat) (x : Nat) (t : List Nat) :
    (pre ++ x :: t).getD pre.length 0 = x := by
  rw [List.getD_append_right _ _ _ _ (Nat.le_refl _)]
  simp

/-- The backfill loop passes right-to-left over dot-free content bytes,
incrementing its running count and touching nothing. -/
lemma backfill_content (l : List Nat) :
    ∀ (P S : List Nat) (lo n : Nat), lo ≤ P.length → n < 256 → (∀ b ∈ l, b ≠ 46) →
    backfill (P ++ (l ++ S)) lo n (P.length + l.length - lo)
      = backfill (P ++ (l ++ S)) lo ((n + l.length) % 256) (P.length - lo) := by
  induction l using List.reverseRecOn with
  | nil =>
    intro P S lo n hlo hn _
    simp [Nat.mod_eq_of_lt hn]
  | append_singleton l' b ih =>
    intro P S lo n hlo hn hb
    have hc : P.length + (l' ++ [b]).length - lo = (P.length + l'.length - lo) + 1 := by
      simp; omega
    rw [hc]
    have hk : lo + (P.length + l'.length - lo) = P.length + l'.length := by omega
    have hre : P ++ ((l' ++ [b]) ++ S) = (P ++ l') ++ (b :: S) := by simp
    have hget : (P ++ ((l' ++ [b]) ++ S)).getD (P.length + l'.length) 0 = b := by
      rw [hre, show P.length + l'.length = (P ++ l').length from by simp]
      exact getD_append_mid _ _ _
    have hbne : b ≠ 46 := hb b (by simp)
    simp only [backfill, hk, hget, if_neg hbne]
    have hre2 : P ++ ((l' ++ [b]) ++ S) = P ++ (l' ++ (b :: S)) := by simp
    rw [hre2, ih P (b :: S) lo ((n + 1) % 256) hlo (Nat.mod_lt _ (by omega))
      (fun x hx => hb x (by simp [hx]))]
    have harith : ((n + 1) % 256 + l'.length) % 256 = (n + (l' ++ [b]).length) % 256 := by
      simp; omega
    rw [harith]

/-- The backfill loop writes the running count over a dot and resets it. -/
lemma backfill_dot (P S : List Nat) (lo n : Nat) (hlo : lo ≤ P.length) :
    backfill (P ++ (46 :: S)) lo n (P.length + 1 - lo)
      = backfill (P ++ (n :: S)) lo 0 (P.length - lo) := by
  have hc : P.length + 1 - lo = (P.length - lo) + 1 := by omega
  rw [hc]
  have hk : lo + (P.length - lo) = P.length := by omega
  have hget : (P ++ (46 :: S)).getD P.length 0 = 46 := getD_append_mid _ _ _
  simp only [backfill, hk, hget, if_pos rfl]
  rw [set_append_mid]
  simp

/-- The backfill pass over a dotted label sequence (the leading virtual dot
included) produces exactly the length-prefixed label encoding. -/
lemma backfill_labels (ls : List (List Nat)) :
    ∀ (A Suf : List Nat), (∀ l ∈ ls, l ≠ [] ∧ l.length ≤ 63 ∧ ∀ b ∈ l, b ≠ 46) →
    backfill ((A ++ dotTail ls) ++ Suf) A.length 0 (dotTail ls).length
      = ((A ++ nameBody ls) ++ Suf, 0) := by
  induction ls using List.reverseRecOn with
  | nil =>
    intro A Suf _
    simp [dotTail, nameBody, backfill]
  | append_singleton ls' l ih =>
    intro A Suf h
    obtain ⟨hl, hl63, hl46⟩ := h l (by simp)
    have hdt : dotTail (ls' ++ [l]) = dotTail ls' ++ (46 :: l) := by simp [dotTail]
    have hsh1 : (A ++ dotTail (ls' ++ [l])) ++ Suf
        = ((A ++ dotTail ls') ++ [46]) ++ (l ++ Suf) := by
      rw [hdt]; simp
    have hcnt : (dotTail (ls' ++ [l])).length
        = ((A ++ dotTail ls') ++ [46]).length + l.length - A.length := by
      rw [hdt]; simp; omega
    rw [hsh1, hcnt]
    rw [backfill_content l ((A ++ dotTail ls') ++ [46]) Suf A.length 0 (by simp)
      (by omega) hl46]
    have hn : (0 + l.length) % 256 = l.length := by
      rw [Nat.zero_add]
      exact Nat.mod_eq_of_lt (by omega)
    rw [hn]
    have hsh2 : ((A ++ dotTail ls') ++ [46]) ++ (l ++ Suf)
        = (A ++ dotTail ls') ++ (46 :: (l ++ Suf)) := by simp
    have hcnt2 : ((A ++ dotTail ls') ++ [46]).length - A.length
        = (A ++ dotTail ls').length + 1 - A.length := by simp; omega
    rw [hsh2, hcnt2]
    rw [backfill_dot (A ++ dotTail ls') (l ++ Suf) A.length l.length (by simp)]
    have hsh3 : (A ++ dotTail ls') ++ (l.length :: (l ++ Suf))
        = ((A ++ dotTail ls') ++ ((l.length :: l) ++ Suf)) := by simp
    have hcnt3 : (A ++ dotTail ls').length - A.length = (dotTail ls').length := by
      simp
    rw [hsh3, hcnt3]
    rw [ih A ((l.length :: l) ++ Suf) (fun l' h' => h l' (by simp [h']))]
    have hnb : nameBody (ls' ++ [l]) = nameBody ls' ++ (l.length :: l) := by
      simp [nameBody, labelEnc]
    rw [hnb]
    simp [List.append_assoc]

/-- The backfill pass stated with syntactically free lower bound and count. -/
lemma backfill_labels_eq (ls : List (List Nat)) (A : List Nat) (lo cnt : Nat)
    (h : ∀ l ∈ ls, l ≠ [] ∧ l.length ≤ 63 ∧ ∀ b ∈ l, b ≠ 46)
    (hlo : lo = A.length) (hcnt : cnt = (dotTail ls).length) :
    backfill (A ++ dotTail ls) lo 0 cnt = (A ++ nameBody ls, 0) := by
  subst hlo hcnt
  have hmain := backfill_labels ls A [] h
  simpa using hmain

/-- Splitting a dot-free byte string on dots gives the string as single segment. -/
lemma splitOnDot_no46 (l : List Nat) (h : ∀ b ∈ l, b ≠ 46) : splitOnDot l = [l] := by
  induction l with
  | nil => rfl
  | cons b bs ih =>
    have hb : b ≠ 46 := h b (by simp)
    have ih' := ih (fun x hx => h x (by simp [hx]))
    simp [splitOnDot, hb, ih']

/-- Splitting peels a dot-free segment followed by a dot off the front. -/
lemma splitOnDot_append_dot (l : List Nat) (h : ∀ b ∈ l, b ≠ 46) (rest : List Nat) :
    splitOnDot (l ++ 46 :: rest) = l :: splitOnDot rest := by
  induction l with
  | nil => simp [splitOnDot]
  | cons b bs ih =>
    have hb : b ≠ 46 := h b (by simp)
    have ih' := ih (fun x hx => h x (by simp [hx]))
    simp [splitOnDot, hb, ih']

/-- Splitting on dots inverts the dot-join of dot-free labels. -/
lemma splitOnDot_dotJoin (labels : List (List Nat)) (hne : labels ≠ [])
    (h46 : ∀ l ∈ labels, ∀ b ∈ l, b ≠ 46) :
    splitOnDot (dotJoin labels) = labels := by
  induction labels with
  | nil => exact absurd rfl hne
  | cons l ls ih =>
    cases ls with
    | nil =>
      have hdj : dotJoin [l] = l := by simp [dotJoin, dotTail]
      rw [hdj]
      exact splitOnDot_no46 l (h46 l (by simp))
    | cons l' ls' =>
      have hdj : dotJoin (l :: l' :: ls') = l ++ 46 :: dotJoin (l' :: ls') := by
        simp [dotJoin, dotTail_cons]
      rw [hdj, splitOnDot_append_dot l (h46 l (by simp))]
      rw [ih (by simp) (fun x hx => h46 x (by simp [hx]))]

/-- The question name recorded by `SetQustion` is the raw-buffer view of the
encoded domain: exactly the length-prefixed label encoding of the split domain. -/
lemma setQustion_name_eq (msg : Message) (id : Nat) (domain : List Nat) (typ cls : Nat) :
    (setQustion msg id domain typ cls).question.name
      = some (encodeLabels (splitOnDot domain)) := by
  show some ((EncodeDomain _ domain).drop 12 |>.take (domain.length + 2))
      = some (encodeLabels (splitOnDot domain))
  have hgen : ∀ (A B : List Nat), A.length = 12 → (A ++ B).drop 12 = B := by
    intro A B h
    rw [← h, List.drop_left]
  have hdrop : (EncodeDomain [((id % 65536) >>> 8) % 256, (id % 65536) % 256,
      (((msg.header.bits &&& 0b0111111111110000) ||| 0b0000000100000000) >>> 8) % 256,
      ((msg.header.bits &&& 0b0111111111110000) ||| 0b0000000100000000) % 256,
      0, 1, 0, 0, 0, 0, 0, 0] domain).drop 12 = encodeLabels (splitOnDot domain) := by
    unfold EncodeDomain
    exact hgen _ _ (by simp)
  rw [hdrop, ← length_encodeLabels_split domain, List.take_length]

/-- `AppendMessage` on a QDCOUNT = 1 message with a non-nil question name:
header bytes, the stored name view verbatim, then QTYPE/QCLASS. -/
lemma appendMessage_name_some (msg : Message) (nm : List Nat)
    (hqd : msg.header.qdCount = 1) (hname : msg.question.name = some nm) :
    appendMessage [] msg
      = [(msg.header.id >>> 8) % 256, msg.header.id % 256,
         (msg.header.bits >>> 8) % 256, msg.header.bits % 256, 0, 1,
         (msg.header.anCount >>> 8) % 256, msg.header.anCount % 256,
         (msg.header.nsCount >>> 8) % 256, msg.header.nsCount % 256,
         (msg.header.arCount >>> 8) % 256, msg.header.arCount % 256]
        ++ nm ++
        (msg.question.type >>> 8) % 256 :: msg.question.type % 256 ::
        (msg.question.cls >>> 8) % 256 :: msg.question.cls % 256 :: [] := by
  simp only [appendMessage, hname, hqd]
  norm_num
  simp [List.append_assoc]

/-- The backfill-path round-trip: serializing a QDCOUNT = 1 message with nil
question name and a well-formed dot-joined domain, then parsing, returns the
original domain. -/
lemma c7_backfill_arm (msg : Message) (l : List Nat) (ls : List (List Nat))
    (dst : Message) (copying : Bool)
    (hqd : msg.header.qdCount = 1) (hname : msg.question.name = none)
    (hdom : msg.domain = dotJoin (l :: ls))
    (hall : ∀ l' ∈ l :: ls, l' ≠ [] ∧ l'.length ≤ 63 ∧ ∀ b ∈ l', b ≠ 0)
    (hnodot : ∀ l' ∈ l :: ls, ∀ b ∈ l', b ≠ 46) :
    ∃ m, parseMessage dst (appendMessage [] msg) copying = .ok m ∧
      m.domain = msg.domain := by
  have h46 : (46 : Nat) :: msg.domain = dotTail (l :: ls) := by
    rw [hdom, dotTail_cons]
    rfl
  have hlen : msg.domain.length + 1 = (dotTail (l :: ls)).length := by
    rw [hdom, dotTail_cons]
    simp [dotJoin]
  have happ : appendMessage [] msg
      = [(msg.header.id >>> 8) % 256, msg.header.id % 256,
         (msg.header.bits >>> 8) % 256, msg.header.bits % 256, 0, 1,
         (msg.header.anCount >>> 8) % 256, msg.header.anCount % 256,
         (msg.header.nsCount >>> 8) % 256, msg.header.nsCount % 256,
         (msg.header.arCount >>> 8) % 256, msg.header.arCount % 256]
        ++ encodeLabels (l :: ls) ++
        (msg.question.type >>> 8) % 256 :: msg.question.type % 256 ::
        (msg.question.cls >>> 8) % 256 :: msg.question.cls % 256 :: [] := by
    simp only [appendMessage, hname, hqd]
    norm_num
    have hbuf : (msg.header.id >>> 8 % 256 :: msg.header.id % 256 ::
          msg.header.bits >>> 8 % 256 :: msg.header.bits % 256 ::
          1 >>> 8 % 256 :: 1 ::
          msg.header.anCount >>> 8 % 256 :: msg.header.anCount % 256 ::
          msg.header.nsCount >>> 8 % 256 :: msg.header.nsCount % 256 ::
          msg.header.arCount >>> 8 % 256 :: msg.header.arCount % 256 ::
          46 :: msg.domain)
        = [msg.header.id >>> 8 % 256, msg.header.id % 256,
           msg.header.bits >>> 8 % 256, msg.header.bits % 256,
           1 >>> 8 % 256, 1,
           msg.header.anCount >>> 8 % 256, msg.header.anCount % 256,
           msg.header.nsCount >>> 8 % 256, msg.header.nsCount % 256,
           msg.header.arCount >>> 8 % 256, msg.header.arCount % 256] ++
          dotTail (l :: ls) := by
      rw [← h46]
      rfl
    rw [hbuf]
    rw [backfill_labels_eq (l :: ls) _ 12 (msg.domain.length + 1)
      (fun l' h' => ⟨(hall l' h').1, (hall l' h').2.1, hnodot l' h'⟩) (by simp) hlen]
    simp [encodeLabels, List.append_assoc]
  rw [happ]
  refine ⟨_, parseMessage_wf _ (l :: ls)
    ((msg.question.type >>> 8) % 256) (msg.question.type % 256)
    ((msg.question.cls >>> 8) % 256) (msg.question.cls % 256) [] dst copying
    (by simp) (by simp [List.getD_cons_succ, List.getD_cons_zero])
    ⟨by simp, hall⟩, ?_⟩
  exact hdom.symm

/-- Claim C7 (amended): the encode/parse round-trip for both serialization
alternatives of the claim. For 1-127 labels of 1-63 bytes each, free of dots
*and of zero bytes* (the amendment: a NUL byte inside a label breaks the
round-trip, see the counterexample), serializing with `AppendMessage` — via the
backfill label encoding when `Question.Name` is nil (first arm), or a message
built by the question-setter `SetQustion` for the dot-joined domain (second
arm) — and then parsing with `ParseMessage` succeeds and yields `Domain`
equal to the original domain. -/
theorem c7_roundtrip_amended (labels : List (List Nat)) (dst : Message) (copying : Bool)
    (hwf : wfLabels labels) (hcount : labels.length ≤ 127)
    (hnodot : ∀ l ∈ labels, ∀ b ∈ l, b ≠ 46) :
    (∀ msg : Message, msg.header.qdCount = 1 → msg.question.name = none →
      msg.domain = dotJoin labels →
      ∃ m, parseMessage dst (appendMessage [] msg) copying = .ok m ∧
        m.domain = msg.domain) ∧
    (∀ (msg0 : Message) (id typ cls : Nat),
      ∃ m, parseMessage dst
          (appendMessage [] (setQustion msg0 id (dotJoin labels) typ cls)) copying = .ok m ∧
        m.domain = (setQustion msg0 id (dotJoin labels) typ cls).domain) := by
  obtain ⟨hne, hall⟩ := hwf
  obtain ⟨l, ls, rfl⟩ := List.exists_cons_of_ne_nil hne
  constructor
  · intro msg hqd hname hdom
    exact c7_backfill_arm msg l ls dst copying hqd hname hdom hall
      (fun x hx => hnodot x hx)
  · intro msg0 id typ cls
    have hsplit : splitOnDot (dotJoin (l :: ls)) = l :: ls :=
      splitOnDot_dotJoin (l :: ls) (by simp) hnodot
    have hname2 : (setQustion msg0 id (dotJoin (l :: ls)) typ cls).question.name
        = some (encodeLabels (l :: ls)) := by
      rw [setQustion_name_eq, hsplit]
    rw [appendMessage_name_some _ _ rfl hname2]
    refine ⟨_, parseMessage_wf _ (l :: ls) _ _ _ _ [] dst copying
      (by simp) (by simp [List.getD_cons_succ, List.getD_cons_zero]) ⟨hne, hall⟩, ?_⟩
    rfl

/-- An outgoing message for the domain `a.b.c` with type 1 and class 1,
question name nil so that serialization takes the backfill path. -/
def msgC7w : Message :=
  { raw := [], domain := [97, 46, 98, 46, 99], header := ⟨0, 0, 1, 0, 0, 0⟩,
    question := ⟨none, 1, 1⟩ }

/-- Witness for the amended C7: the hypotheses hold and both arms of the
round-trip are applied concretely for domain `a.b.c`, type 1, class 1 — the
backfill path on `msgC7w`, and the question-setter-built message. -/
theorem c7_roundtrip_amended_witness :
    (wfLabels [[97], [98], [99]] ∧
      ([[97], [98], [99]] : List (List Nat)).length ≤ 127 ∧
      (∀ l ∈ ([[97], [98], [99]] : List (List Nat)), ∀ b ∈ l, b ≠ 46) ∧
      msgC7w.header.qdCount = 1 ∧ msgC7w.question.name = none ∧
      msgC7w.domain = dotJoin [[97], [98], [99]]) ∧
    (∃ m, parseMessage emptyMessage (appendMessage [] msgC7w) true = .ok m ∧
      m.domain = msgC7w.domain) ∧
    (∃ m, parseMessage emptyMessage
        (appendMessage [] (setQustion emptyMessage 0 (dotJoin [[97], [98], [99]]) 1 1)) true
        = .ok m ∧
      m.domain = (setQustion emptyMessage 0 (dotJoin [[97], [98], [99]]) 1 1).domain) :=
  ⟨⟨by decide, by decide, by decide, by decide, by decide, by decide⟩,
    (c7_roundtrip_amended [[97], [98], [99]] emptyMessage true
        (by decide) (by decide) (by decide)).1 msgC7w (by decide) (by decide) (by decide),
    (c7_roundtrip_amended [[97], [98], [99]] emptyMessage true
        (by decide) (by decide) (by decide)).2 emptyMessage 0 1 1⟩

end Fastdns
